import Mathlib

/-!
Verification development for the Scrap-MYGAP repository.

The repository scrapes Malaysian MyGAP certification tables: it fetches a
listing page, locates the data table through data-field attributes, extracts
one record per table row, resolves truncated cells through follow-up
requests to a fulltext endpoint, and serves the results behind a freshness
cache gate.  The definitions below are a shallow embedding of that code:
documents are modelled as parsed tables of cells (the output of the HTML
parser), the network is modelled as oracle functions from URLs to
responses, and the pure string processing of the source (entity decoding,
JSON parsing, regular-expression substitutions) is implemented directly.
-/

/-- ASCII part of the whitespace class used by the regular expressions and
by the strip calls in the source. -/
def isPySpace (c : Char) : Bool :=
  c = ' ' || c = '\t' || c = '\n' || c = '\r' || c = Char.ofNat 11 || c = Char.ofNat 12

/-- Does the first character list start with the second one? -/
def charsStartsWith : List Char → List Char → Bool
  | _, [] => true
  | [], _ :: _ => false
  | c :: cs, p :: ps => c = p && charsStartsWith cs ps

/-- Does the first character list contain the second as a contiguous
segment?  Models the Python substring test. -/
def charsContains : List Char → List Char → Bool
  | [], p => p.isEmpty
  | c :: cs, p => charsStartsWith (c :: cs) p || charsContains cs p

/-- Substring test on strings, modelling the Python in operator. -/
def strContainsSub (s pat : String) : Bool :=
  charsContains s.data pat.data

/-- Starts-with test on strings, modelling the Python startswith method. -/
def strStarts (s pat : String) : Bool :=
  charsStartsWith s.data pat.data

/-- Accumulate a run of decimal digits into a number, returning the rest. -/
def readDigits : List Char → Nat → Nat × List Char
  | [], acc => (acc, [])
  | c :: cs, acc =>
    if c.isDigit then readDigits cs (acc * 10 + (c.toNat - 48)) else (acc, c :: cs)

/-- Decode a numeric character reference body: a hash sign, one or more
decimal digits and a semicolon.  Returns the character and the rest. -/
def numericRef (cs : List Char) : Option (Char × List Char) :=
  match cs with
  | '#' :: rest =>
    match rest with
    | d :: _ =>
      if d.isDigit then
        match readDigits rest 0 with
        | (n, ';' :: rest2) => some (Char.ofNat n, rest2)
        | _ => none
      else none
    | [] => none
  | _ => none

/-- Models the standard-library HTML entity decoder used by the source for
the named entities quot, amp, lt, gt, apos and decimal numeric character
references, which cover the payloads this site produces.  The fuel argument
bounds the recursion; one unit is always enough per consumed character. -/
def htmlUnescapeAux : Nat → List Char → List Char
  | 0, cs => cs
  | _ + 1, [] => []
  | fuel + 1, c :: cs =>
    if c = '&' then
      if charsStartsWith cs (("quot;").data) then '"' :: htmlUnescapeAux fuel (cs.drop 5)
      else if charsStartsWith cs (("amp;").data) then '&' :: htmlUnescapeAux fuel (cs.drop 4)
      else if charsStartsWith cs (("lt;").data) then '<' :: htmlUnescapeAux fuel (cs.drop 3)
      else if charsStartsWith cs (("gt;").data) then '>' :: htmlUnescapeAux fuel (cs.drop 3)
      else if charsStartsWith cs (("apos;").data) then Char.ofNat 39 :: htmlUnescapeAux fuel (cs.drop 5)
      else
        match numericRef cs with
        | some (ch, rest) => ch :: htmlUnescapeAux fuel rest
        | none => '&' :: htmlUnescapeAux fuel cs
    else c :: htmlUnescapeAux fuel cs

/-- Entity-decode a whole string, modelling html.unescape in the source. -/
def htmlUnescape (s : String) : String :=
  String.mk (htmlUnescapeAux s.data.length s.data)

/-- Match the line-break tag pattern of the source (an opening angle
bracket, the letters b r, optional whitespace, an optional slash and the
closing angle bracket) at the head of the input; on success return the
rest. -/
def matchBr (cs : List Char) : Option (List Char) :=
  match cs with
  | '<' :: 'b' :: 'r' :: rest =>
    match rest.dropWhile isPySpace with
    | '/' :: '>' :: r => some r
    | '>' :: r => some r
    | _ => none
  | _ => none

/-- Replace every line-break tag with a comma and a space, modelling the
first substitution of the dialog sanitizer. -/
def replaceBrAux : Nat → List Char → List Char
  | 0, cs => cs
  | _ + 1, [] => []
  | fuel + 1, c :: cs =>
    match matchBr (c :: cs) with
    | some rest => ',' :: ' ' :: replaceBrAux fuel rest
    | none => c :: replaceBrAux fuel cs

/-- Skip to just after the first closing angle bracket. -/
def skipToGt : List Char → Option (List Char)
  | [] => none
  | '>' :: r => some r
  | _ :: r => skipToGt r

/-- After an opening angle bracket, a tag needs at least one character
before the closing angle bracket. -/
def findTagEnd : List Char → Option (List Char)
  | [] => none
  | '>' :: _ => none
  | _ :: rest => skipToGt rest

/-- Delete every remaining markup tag, modelling the second substitution of
the dialog sanitizer. -/
def stripTagsAux : Nat → List Char → List Char
  | 0, cs => cs
  | _ + 1, [] => []
  | fuel + 1, c :: cs =>
    if c = '<' then
      match findTagEnd cs with
      | some rest => stripTagsAux fuel rest
      | none => '<' :: stripTagsAux fuel cs
    else c :: stripTagsAux fuel cs

/-- Left-to-right non-overlapping replacement of a nonempty pattern,
modelling the Python replace method on strings. -/
def replaceSubAux (pat rep : List Char) : Nat → List Char → List Char
  | 0, cs => cs
  | _ + 1, [] => []
  | fuel + 1, c :: cs =>
    if charsStartsWith (c :: cs) pat && !pat.isEmpty then
      rep ++ replaceSubAux pat rep fuel ((c :: cs).drop pat.length)
    else c :: replaceSubAux pat rep fuel cs

/-- Match a comma, optional whitespace and a second comma at the head of
the input; on success return the rest after the second comma. -/
def matchCommaPair (cs : List Char) : Option (List Char) :=
  match cs with
  | ',' :: rest =>
    match rest.dropWhile isPySpace with
    | ',' :: r => some r
    | _ => none
  | _ => none

/-- Collapse duplicate delimiters, modelling the duplicate-comma
substitution of the dialog sanitizer. -/
def collapseCommasAux : Nat → List Char → List Char
  | 0, cs => cs
  | _ + 1, [] => []
  | fuel + 1, c :: cs =>
    match matchCommaPair (c :: cs) with
    | some rest => ',' :: collapseCommasAux fuel rest
    | none => c :: collapseCommasAux fuel cs

/-- All characters are whitespace. -/
def allSpaces (cs : List Char) : Bool := cs.all isPySpace

/-- Delete a trailing comma followed only by whitespace, modelling the
trailing-comma substitution of the dialog sanitizer. -/
def trimTrailingCommaAux : List Char → List Char
  | [] => []
  | c :: cs => if c == ',' && allSpaces cs then [] else c :: trimTrailingCommaAux cs

/-- Strip leading and trailing whitespace, modelling the strip method. -/
def pyStrip (cs : List Char) : List Char :=
  ((cs.dropWhile isPySpace).reverse.dropWhile isPySpace).reverse

/-- The sanitizer applied to the decoded dialog content in
get_full_text_from_dialog: line-break tags become a comma and a space,
remaining tags are deleted, literal and real newlines become a comma and a
space, duplicate commas are collapsed, a trailing comma is removed, and
the result is stripped. -/
def sanitizeContent (content : String) : String :=
  let c1 := replaceBrAux content.data.length content.data
  let c2 := stripTagsAux c1.length c1
  let c3 := replaceSubAux (("\\n").data) ((", ").data) c2.length c2
  let c4 := replaceSubAux (("\n").data) ((", ").data) c3.length c3
  let c5 := collapseCommasAux c4.length c4
  let c6 := trimTrailingCommaAux c5
  String.mk (pyStrip c6)

/-- JSON values as produced by the standard-library JSON loader.  Numbers
are modelled as integers; the payloads of this site contain no fractional
numbers. -/
inductive Json where
  | null : Json
  | bool : Bool → Json
  | num : Int → Json
  | str : String → Json
  | arr : List Json → Json
  | obj : List (String × Json) → Json

/-- Set a key in an association list the way a Python dictionary does:
replace the first binding of the key in place, or append a new binding. -/
def dictSetJson : List (String × Json) → String → Json → List (String × Json)
  | [], k, v => [(k, v)]
  | (k0, v0) :: rest, k, v =>
    if k0 = k then (k, v) :: rest else (k0, v0) :: dictSetJson rest k v

/-- Dictionary lookup on an association list with unique keys. -/
def jlookup (kvs : List (String × Json)) (k : String) : Option Json :=
  (kvs.find? (fun p => p.1 == k)).map (fun p => p.2)

/-- The truth value Python assigns to a JSON value. -/
def jsonTruthy : Json → Bool
  | Json.null => false
  | Json.bool b => b
  | Json.num n => n != 0
  | Json.str s => s != ""
  | Json.arr xs => !xs.isEmpty
  | Json.obj kvs => !kvs.isEmpty

/-- Hexadecimal digit value. -/
def hexVal (c : Char) : Option Nat :=
  if c.isDigit then some (c.toNat - 48)
  else if 'a' ≤ c ∧ c ≤ 'f' then some (c.toNat - 87)
  else if 'A' ≤ c ∧ c ≤ 'F' then some (c.toNat - 55)
  else none

/-- Parse the body of a JSON string after the opening quote, handling the
standard escapes.  The fuel argument bounds the recursion. -/
def parseJsonStringAux : Nat → List Char → List Char → Option (String × List Char)
  | 0, _, _ => none
  | _ + 1, _, [] => none
  | fuel + 1, acc, c :: rest =>
    if c = '"' then some (String.mk acc.reverse, rest)
    else if c = '\\' then
      match rest with
      | 'n' :: r => parseJsonStringAux fuel ('\n' :: acc) r
      | 't' :: r => parseJsonStringAux fuel ('\t' :: acc) r
      | 'r' :: r => parseJsonStringAux fuel ('\r' :: acc) r
      | 'b' :: r => parseJsonStringAux fuel (Char.ofNat 8 :: acc) r
      | 'f' :: r => parseJsonStringAux fuel (Char.ofNat 12 :: acc) r
      | '"' :: r => parseJsonStringAux fuel ('"' :: acc) r
      | '\\' :: r => parseJsonStringAux fuel ('\\' :: acc) r
      | '/' :: r => parseJsonStringAux fuel ('/' :: acc) r
      | 'u' :: h1 :: h2 :: h3 :: h4 :: r =>
        match hexVal h1, hexVal h2, hexVal h3, hexVal h4 with
        | some a, some b, some c3, some d =>
          parseJsonStringAux fuel (Char.ofNat (((a * 16 + b) * 16 + c3) * 16 + d) :: acc) r
        | _, _, _, _ => none
      | _ => none
    else parseJsonStringAux fuel (c :: acc) rest

/-- JSON whitespace. -/
def isJsonWs (c : Char) : Bool :=
  c = ' ' || c = '\t' || c = '\n' || c = '\r'

/-- Parse an optionally signed run of decimal digits. -/
def parseNum (cs : List Char) : Option (Int × List Char) :=
  match cs with
  | '-' :: d :: r =>
    if d.isDigit then
      match readDigits (d :: r) 0 with
      | (n, rest) => some (-(n : Int), rest)
    else none
  | d :: r =>
    if d.isDigit then
      match readDigits (d :: r) 0 with
      | (n, rest) => some ((n : Int), rest)
    else none
  | [] => none

mutual

/-- Parse one JSON value, modelling the strict standard-library loader on
the payload shapes this site produces.  The fuel bounds nesting depth. -/
def parseVal : Nat → List Char → Option (Json × List Char)
  | 0, _ => none
  | fuel + 1, cs =>
    match cs.dropWhile isJsonWs with
    | [] => none
    | '{' :: rest =>
      match rest.dropWhile isJsonWs with
      | '}' :: r => some (Json.obj [], r)
      | other =>
        match parseMembers fuel other [] with
        | some (kvs, r) => some (Json.obj kvs, r)
        | none => none
    | '[' :: rest =>
      match rest.dropWhile isJsonWs with
      | ']' :: r => some (Json.arr [], r)
      | other =>
        match parseItems fuel other [] with
        | some (xs, r) => some (Json.arr xs, r)
        | none => none
    | '"' :: rest =>
      match parseJsonStringAux (rest.length + 1) [] rest with
      | some (s, r) => some (Json.str s, r)
      | none => none
    | 't' :: 'r' :: 'u' :: 'e' :: r => some (Json.bool true, r)
    | 'f' :: 'a' :: 'l' :: 's' :: 'e' :: r => some (Json.bool false, r)
    | 'n' :: 'u' :: 'l' :: 'l' :: r => some (Json.null, r)
    | other =>
      match parseNum other with
      | some (n, r) => some (Json.num n, r)
      | none => none

/-- Parse the members of a JSON object after the opening brace, with
duplicate keys resolved the way a Python dictionary resolves them. -/
def parseMembers : Nat → List Char → List (String × Json) → Option (List (String × Json) × List Char)
  | 0, _, _ => none
  | fuel + 1, cs, acc =>
    match cs.dropWhile isJsonWs with
    | '"' :: rest =>
      match parseJsonStringAux (rest.length + 1) [] rest with
      | some (k, rest2) =>
        match rest2.dropWhile isJsonWs with
        | ':' :: rest3 =>
          match parseVal fuel rest3 with
          | some (v, rest4) =>
            match rest4.dropWhile isJsonWs with
            | ',' :: rest5 => parseMembers fuel rest5 (dictSetJson acc k v)
            | '}' :: rest5 => some ((dictSetJson acc k v, rest5) : List (String × Json) × List Char)
            | _ => none
          | none => none
        | _ => none
      | none => none
    | _ => none

/-- Parse the items of a JSON array after the opening bracket. -/
def parseItems : Nat → List Char → List Json → Option (List Json × List Char)
  | 0, _, _ => none
  | fuel + 1, cs, acc =>
    match parseVal fuel cs with
    | some (v, rest) =>
      match rest.dropWhile isJsonWs with
      | ',' :: rest2 => parseItems fuel rest2 (v :: acc)
      | ']' :: rest2 => some (((v :: acc).reverse, rest2) : List Json × List Char)
      | _ => none
    | none => none

end

/-- Parse a complete JSON document: one value and nothing but whitespace
after it, as the strict standard-library loader requires. -/
def parseJson (s : String) : Option Json :=
  match parseVal (s.data.length + 1) s.data with
  | some (j, rest) => if (rest.dropWhile isJsonWs).isEmpty then some j else none
  | none => none

/-- A fetched HTTP response: status code and body text. -/
structure HttpResponse where
  status : Nat
  text : String

/-- The base address of the site, as in the source. -/
def base_url : String := "https://carianmygapmyorganic.doa.gov.my/"

/-- The function get_full_text_from_dialog of scrap_tanaman.py.  The
network is the oracle fetch, mapping a URL to its response, with none
standing for a raised request exception.  The oracle fb stands for the
HTML-parser fallback used on a JSON decode error: the stripped text of the
modal-body container, or of the whole document when that container is
absent.  Joining a relative fulltext reference against the base address is
modelled by appending, since the base address ends in a slash.  A response
whose parsed JSON is not an object, or whose content value is not a
string, raises inside the outer handler and yields none, as in the
source. -/
def get_full_text_from_dialog (fetch : String → Option HttpResponse)
    (fb : String → String) (more_link_url baseUrl : String) : Option String :=
  let full_url := if strStarts more_link_url ("fulltext.php") then baseUrl ++ more_link_url
                  else more_link_url
  match fetch full_url with
  | none => none
  | some resp =>
    if resp.status = 200 then
      match parseJson (htmlUnescape resp.text) with
      | some (Json.obj kvs) =>
        if jsonTruthy ((jlookup kvs ("success")).getD Json.null)
            && ((jlookup kvs ("textCont")).isSome) then
          match jlookup kvs ("textCont") with
          | some (Json.str content) => some (sanitizeContent content)
          | _ => none
        else none
      | some _ => none
      | none => some (fb resp.text)
    else none

/-- An anchor element inside a table cell, carrying the two attributes the
source inspects. -/
structure Anchor where
  dataQuery : Option String
  href : Option String

/-- A table cell as the HTML parser delivers it: its tag kind, its
data-field attribute, its stripped text and its anchor descendants. -/
structure Cell where
  isTh : Bool
  dataField : Option String
  text : String
  anchors : List Anchor

/-- A table row is its list of cells. -/
abbrev TableRow := List Cell

/-- A record is an insertion-ordered dictionary from field identifiers to
string values. -/
abbrev Record := List (String × String)

/-- The field schema of the tanaman category, DATA_FIELDS of
scrap_tanaman.py. -/
def DATA_FIELDS : List String :=
  ["no_pensijilan", "projek", "nama", "negeri", "daerah", "jenis_tanaman",
   "kategori_komoditi", "kategori_tanaman", "luas_ladang", "tahun_pensijilan",
   "tarikh_pensijilan", "tempoh_sah_laku"]

/-- The field schema of the apiary-management category, DATA_FIELDS of
scrap_am.py. -/
def AM_DATA_FIELDS : List String :=
  ["no_pensijilan", "projek", "nama", "negeri", "daerah", "jenis_tanaman",
   "kategori_komoditi", "kategori_tanaman", "bil_haif", "luas_ladang",
   "tahun_pensijilan", "tarikh_pensijilan", "tempoh_sah_laku"]

/-- Set a key in a field-to-column dictionary the way Python does. -/
def dictSetNat : List (String × Nat) → String → Nat → List (String × Nat)
  | [], k, v => [(k, v)]
  | (k0, v0) :: rest, k, v =>
    if k0 = k then (k, v) :: rest else (k0, v0) :: dictSetNat rest k v

/-- Dictionary lookup in a field-to-column map. -/
def mapLookup (m : List (String × Nat)) (k : String) : Option Nat :=
  (m.find? (fun p => p.1 == k)).map (fun p => p.2)

/-- Set a key in a record the way a Python dictionary does. -/
def dictSet : Record → String → String → Record
  | [], k, v => [(k, v)]
  | (k0, v0) :: rest, k, v =>
    if k0 = k then (k, v) :: rest else (k0, v0) :: dictSet rest k v

/-- The enumerated scan of one row for the header search: collect cells
whose data-field attribute is one of the schema identifiers, keyed by
identifier with the column position as value. -/
def buildTempMapAux (fields : List String) : List Cell → Nat → List (String × Nat) → List (String × Nat)
  | [], _, m => m
  | c :: cs, j, m =>
    match c.dataField with
    | some df =>
      if fields.contains df then buildTempMapAux fields cs (j + 1) (dictSetNat m df j)
      else buildTempMapAux fields cs (j + 1) m
    | none => buildTempMapAux fields cs (j + 1) m

/-- One row of the header scan, cells enumerated from column zero. -/
def buildTempMap (fields : List String) (cells : TableRow) : List (String × Nat) :=
  buildTempMapAux fields cells 0 []

/-- Scan rows in order for the first one yielding a nonempty temporary
map; that row is the header row and its map becomes the column map. -/
def findHeaderAux (fields : List String) : List TableRow → Nat → Option (Nat × List (String × Nat))
  | [], _ => none
  | r :: rs, i =>
    let m := buildTempMap fields r
    if m.isEmpty then findHeaderAux fields rs (i + 1) else some (i, m)

/-- The header search over the rows of the located table. -/
def findHeader (fields : List String) (rows : List TableRow) : Option (Nat × List (String × Nat)) :=
  findHeaderAux fields rows 0

/-- Does this table contain a th cell tagged with the given field?  Models
the soup.find call for the schema's first field followed by find_parent. -/
def tableHasTargetTh (field : String) (rows : List TableRow) : Bool :=
  rows.any (fun row => row.any (fun c => c.isTh && c.dataField == some field))

/-- Locate the table owning the first th tagged with the schema's first
field, in document order. -/
def findTargetTable (fields : List String) (doc : List (List TableRow)) : Option (List TableRow) :=
  match fields.head? with
  | some f0 => doc.find? (tableHasTargetTh f0)
  | none => none

/-- The first anchor of the cell whose data-query attribute matches the
fulltext pattern, as the find call with the compiled pattern does. -/
def findMoreLink (cell : Cell) : Option Anchor :=
  cell.anchors.find?
    (fun a =>
      match a.dataQuery with
      | some q => strContainsSub q ("fulltext.php")
      | none => false)

/-- The query URL taken from an anchor: the data-query attribute when it is
truthy, otherwise the href attribute when that is truthy. -/
def anchorQueryUrl (a : Anchor) : Option String :=
  match a.dataQuery with
  | some q => if q ≠ "" then some q else
      match a.href with
      | some h => if h ≠ "" then some h else none
      | none => none
  | none =>
      match a.href with
      | some h => if h ≠ "" then some h else none
      | none => none

/-- Match the trailing truncation-marker pattern of the source at this
position: the word More, optional whitespace, one or more dots, end of
string. -/
def moreSuffixAt (cs : List Char) : Bool :=
  charsStartsWith cs (("More").data) &&
    (let rest := (cs.drop 4).dropWhile isPySpace
     !rest.isEmpty && rest.all (fun c => c == '.'))

/-- Delete the leftmost trailing More marker, modelling the substitution
with the end anchor in the source. -/
def cutMoreSuffix : List Char → List Char
  | [] => []
  | c :: cs => if moreSuffixAt (c :: cs) then [] else c :: cutMoreSuffix cs

/-- The cleanup the source applies when a truncated cell has no usable
follow-up link: delete the trailing More marker, strip, then drop one
trailing comma and strip again. -/
def cleanedMoreText (s : String) : String :=
  let t := pyStrip (cutMoreSuffix s.data)
  match t.getLast? with
  | some c => if c = ',' then String.mk (pyStrip (t.dropLast)) else String.mk t
  | none => String.mk t

/-- A deferred follow-up request: field identifier, query URL, owning row
index, exactly the tuples appended to dialog_requests in the source. -/
abbrev DialogRequest := String × String × Nat

/-- The value stored for one schema field of one row by the phase-one loop
of extract_mygap_tanaman_data.  The raw cell text is kept even when a
deferred request is enqueued; the trailing marker is cleaned away only
when the marker is present but no usable link exists. -/
def fieldValue (colMap : List (String × Nat)) (cells : TableRow) (field : String) : String :=
  match mapLookup colMap field with
  | some col =>
    match cells.get? col with
    | some cell =>
      let cellData := cell.text
      if strContainsSub cellData ("More") && strContainsSub cellData ("...") then
        match findMoreLink cell with
        | some _ => cellData
        | none => cleanedMoreText cellData
      else cellData
    | none => ""
  | none => ""

/-- The deferred request the phase-one loop enqueues for one schema field
of one row, when the cell text matches the truncation marker and the cell
carries a usable follow-up link. -/
def fieldRequest (colMap : List (String × Nat)) (cells : TableRow) (rowIndex : Nat)
    (field : String) : Option DialogRequest :=
  match mapLookup colMap field with
  | some col =>
    match cells.get? col with
    | some cell =>
      if strContainsSub cell.text ("More") && strContainsSub cell.text ("...") then
        match findMoreLink cell with
        | some a =>
          match anchorQueryUrl a with
          | some u => if u ≠ "javascript:void(0);" then some (field, u, rowIndex) else none
          | none => none
        | none => none
      else none
    | none => none
  | none => none

/-- The record the phase-one loop builds for one row: every schema field,
in schema order. -/
def rowRecord (fields : List String) (colMap : List (String × Nat)) (cells : TableRow) : Record :=
  fields.map (fun f => (f, fieldValue colMap cells f))

/-- All deferred requests the phase-one loop enqueues for one row, in
schema order. -/
def rowRequests (fields : List String) (colMap : List (String × Nat)) (cells : TableRow)
    (rowIndex : Nat) : List DialogRequest :=
  fields.filterMap (fieldRequest colMap cells rowIndex)

/-- Did this row end up with at least one non-empty field value?  The
source sets has_data exactly when some stored value is non-empty. -/
def rowHasData (fields : List String) (colMap : List (String × Nat)) (cells : TableRow) : Bool :=
  fields.any (fun f => fieldValue colMap cells f ≠ "")

/-- The phase-one loop of extract_mygap_tanaman_data over the rows after
the header: the row index enumerates every iterated row, rows without
cells are skipped, rows with no data are discarded from the output but
their deferred requests are still enqueued, exactly as in the source. -/
def phase1Aux (fields : List String) (colMap : List (String × Nat)) :
    List TableRow → Nat → List Record × List DialogRequest
  | [], _ => ([], [])
  | cells :: rest, i =>
    let r := phase1Aux fields colMap rest (i + 1)
    if cells.isEmpty then r
    else if rowHasData fields colMap cells then
      (rowRecord fields colMap cells :: r.1, rowRequests fields colMap cells i ++ r.2)
    else (r.1, rowRequests fields colMap cells i ++ r.2)

/-- Phase one over the rows strictly after the header row. -/
def phase1 (fields : List String) (colMap : List (String × Nat)) (rows : List TableRow) :
    List Record × List DialogRequest :=
  phase1Aux fields colMap rows 0

/-- Insert one fetched content into the nested dictionary of batch
results, keyed by row index then field, with Python dictionary insertion
semantics. -/
def resultsInsert : List (Nat × List (String × String)) → Nat → String → String →
    List (Nat × List (String × String))
  | [], i, f, c => [(i, [(f, c)])]
  | (i0, m) :: rest, i, f, c =>
    if i0 = i then (i0, dictSet m f c) :: rest else (i0, m) :: resultsInsert rest i f c

/-- The function batch_fetch_full_content of scrap_tanaman.py.  Results
are collected in submission order; a request whose fetch fails or returns
empty content contributes nothing.  The bounded worker pool changes only
scheduling, not which result lands where, since every result is filed
under its own row index and field. -/
def batch_fetch_full_content (fetch : String → Option HttpResponse) (fb : String → String)
    (baseUrl : String) (reqs : List DialogRequest) : List (Nat × List (String × String)) :=
  reqs.foldl
    (fun results req =>
      match get_full_text_from_dialog fetch fb req.2.1 baseUrl with
      | some c => if c ≠ "" then resultsInsert results req.2.2 req.1 c else results
      | none => results)
    []

/-- Write one resolved content into the record at the given position. -/
def updateAt (recs : List Record) (i : Nat) (f c : String) : List Record :=
  recs.set i (dictSet ((recs.get? i).getD []) f c)

/-- The phase-three loop of extract_mygap_tanaman_data: walk the batch
results; a row index at least the length of the retained list is skipped
by the bound check; otherwise every non-empty content is written into
that record under its field. -/
def phase3 (recs : List Record) (results : List (Nat × List (String × String))) : List Record :=
  results.foldl
    (fun acc entry =>
      if entry.1 < acc.length then
        entry.2.foldl (fun acc2 fc => if fc.2 ≠ "" then updateAt acc2 entry.1 fc.1 fc.2 else acc2) acc
      else acc)
    recs

/-- The field value of a record at a position of a record list, for
stating frame properties. -/
def slotGet (recs : List Record) (i : Nat) (f : String) : Option String :=
  (recs.get? i).bind (fun r => (r.find? (fun p => p.1 == f)).map (fun p => p.2))

/-- One record rendered as the JSON object the serializer writes. -/
def recordToJson (r : Record) : Json :=
  Json.obj (r.map (fun p => (p.1, Json.str p.2)))

/-- The function save_data with the json format, as both extractors call
it: the artifact is a metadata wrapper around the data array.  The two
timestamp strings stand for the clock readings taken at save time; the
file write itself is the external sink, so the function returns the
written JSON value, or none when there is no data to save. -/
def save_data (extracted_at timestamp : String) (fields : List String)
    (data : List Record) : Option Json :=
  if data.isEmpty then none
  else
    some (Json.obj
      [("metadata", Json.obj
        [("extracted_at", Json.str extracted_at),
         ("timestamp", Json.str timestamp),
         ("total_records", Json.num (data.length : Int)),
         ("fields", Json.arr (fields.map Json.str))]),
       ("data", Json.arr (data.map recordToJson))])

/-- The function extract_mygap_tanaman_data of scrap_tanaman.py.  The
primary listing fetch is given as its status code and parsed document (a
list of tables, each a list of rows); fetch and fb are the network and
fallback oracles for the follow-up dialog requests.  The returned pair is
the record list together with the JSON artifact written by the save call,
none when nothing was saved; a none result models the early returns of
the source. -/
def extract_mygap_tanaman_data (fetch : String → Option HttpResponse) (fb : String → String)
    (extracted_at timestamp : String) (save_to_file : Bool) (status : Nat)
    (doc : List (List TableRow)) : Option (List Record × Option Json) :=
  if status ≠ 200 then none
  else
    match findTargetTable DATA_FIELDS doc with
    | none => none
    | some tableRows =>
      match findHeader DATA_FIELDS tableRows with
      | none => none
      | some (hIdx, colMap) =>
        let p := phase1 DATA_FIELDS colMap (tableRows.drop (hIdx + 1))
        let finalData :=
          if p.2.isEmpty then p.1
          else phase3 p.1 (batch_fetch_full_content fetch fb base_url p.2)
        let artifact :=
          if save_to_file && !finalData.isEmpty then
            save_data extracted_at timestamp DATA_FIELDS finalData
          else none
        some (finalData, artifact)

/-- The value stored for one schema field of one row by the extraction
loop of scrap_am.py, which has no truncation handling. -/
def amFieldValue (colMap : List (String × Nat)) (cells : TableRow) (field : String) : String :=
  match mapLookup colMap field with
  | some col =>
    match cells.get? col with
    | some cell => cell.text
    | none => ""
  | none => ""

/-- The record the loop of scrap_am.py builds for one row. -/
def amRowRecord (colMap : List (String × Nat)) (cells : TableRow) : Record :=
  AM_DATA_FIELDS.map (fun f => (f, amFieldValue colMap cells f))

/-- Has this row at least one non-empty field value, scrap_am.py. -/
def amRowHasData (colMap : List (String × Nat)) (cells : TableRow) : Bool :=
  AM_DATA_FIELDS.any (fun f => amFieldValue colMap cells f ≠ "")

/-- The extraction loop of scrap_am.py over the rows after the header. -/
def phase1Am (colMap : List (String × Nat)) : List TableRow → List Record
  | [] => []
  | cells :: rest =>
    let r := phase1Am colMap rest
    if cells.isEmpty then r
    else if amRowHasData colMap cells then amRowRecord colMap cells :: r
    else r

/-- The function extract_mygap_am_data of scrap_am.py. -/
def extract_mygap_am_data (extracted_at timestamp : String) (save_to_file : Bool)
    (status : Nat) (doc : List (List TableRow)) : Option (List Record × Option Json) :=
  if status ≠ 200 then none
  else
    match findTargetTable AM_DATA_FIELDS doc with
    | none => none
    | some tableRows =>
      match findHeader AM_DATA_FIELDS tableRows with
      | none => none
      | some (hIdx, colMap) =>
        let finalData := phase1Am colMap (tableRows.drop (hIdx + 1))
        let artifact :=
          if save_to_file && !finalData.isEmpty then
            save_data extracted_at timestamp AM_DATA_FIELDS finalData
          else none
        some (finalData, artifact)

/-- Read record fields back from JSON object members whose values are
strings. -/
def recordFromJsonFields : List (String × Json) → Option Record
  | [] => some []
  | (k, Json.str s) :: rest => (recordFromJsonFields rest).map (fun r => (k, s) :: r)
  | _ :: _ => none

/-- Read one record back from a JSON object whose values are strings. -/
def jsonToRecord (j : Json) : Option Record :=
  match j with
  | Json.obj kvs => recordFromJsonFields kvs
  | _ => none

/-- Read records back from a JSON list of such objects. -/
def recordsFromJsonList : List Json → Option (List Record)
  | [] => some []
  | j :: rest =>
    match jsonToRecord j with
    | some r => (recordsFromJsonList rest).map (fun rs => r :: rs)
    | none => none

/-- Read a record list back from a JSON array of such objects. -/
def jsonToRecords (j : Json) : Option (List Record) :=
  match j with
  | Json.arr xs => recordsFromJsonList xs
  | _ => none

/-- The reader branch of the cache gate in main.py: a bare array is taken
as the data, an object is unwrapped at its data key when it has one, and
any other parsed value is taken as the data itself. -/
def readRawData : Json → Json
  | Json.arr xs => Json.arr xs
  | Json.obj kvs =>
    match jlookup kvs ("data") with
    | some v => v
    | none => Json.obj kvs
  | j => j

/-- Reading the newest cache file in the gate of main.py: none in means
the load raised (corrupt or unreadable file); a parsed null also leaves
raw_data as the Python none and falls through to a fresh fetch. -/
def tryLoadCache (content : Option Json) : Option Json :=
  match content with
  | none => none
  | some j =>
    match readRawData j with
    | Json.null => none
    | r => some r

/-- What the cache gate decides: return cached data, or invoke the
producer function with the given save flag. -/
inductive GateDecision where
  | cached : Json → GateDecision
  | fetch : Bool → GateDecision

/-- The newest file by modification time, first one on ties, as the max
call with the modification-time key returns it. -/
def maxByMtime : List (Int × Option Json) → Option (Int × Option Json)
  | [] => none
  | f :: fs => some (fs.foldl (fun best g => if g.1 > best.1 then g else best) f)

/-- Seconds in one day, the staleness threshold of the gate. -/
def oneDaySeconds : Int := 86400

/-- The freshness cache gate of every category handler in main.py, with
the clock and the category's files (modification time paired with parsed
content, none for an unreadable file) as inputs: when the newest file is
strictly younger than one day and loads, its data is returned; otherwise
the producer function is invoked with the save flag set. -/
def get_mygap_data (now : Int) (files : List (Int × Option Json)) : GateDecision :=
  match maxByMtime files with
  | none => GateDecision.fetch true
  | some (mtime, content) =>
    if now - mtime < oneDaySeconds then
      match tryLoadCache content with
      | some raw => GateDecision.cached raw
      | none => GateDecision.fetch true
    else GateDecision.fetch true

/-- Membership of a row-and-field slot in the nested batch-results
dictionary, used to state where phase three may write. -/
def resultsMem (results : List (Nat × List (String × String))) (i : Nat) (f : String) : Prop :=
  ∃ m, (i, m) ∈ results ∧ ∃ c, (f, c) ∈ m

/-- A header cell tagged with the first schema field. -/
def hdrCell : Cell := Cell.mk true (some ("no_pensijilan")) ("No") []

/-- A data cell with empty text. -/
def emptyCell : Cell := Cell.mk false none ("") []

/-- A data cell whose text matches the truncation marker and which carries
a usable follow-up link. -/
def truncCell : Cell :=
  Cell.mk false none ("AAA, More ...") [Anchor.mk (some ("fulltext.php?id=1")) none]

/-- A data cell with plain text. -/
def plainCell : Cell := Cell.mk false none ("BBB") []

/-- A document whose table has, after the header row, one row that is
discarded as all-empty, then a truncated row, then a plain row. -/
def docWithDiscardedRow : List (List TableRow) :=
  [[[hdrCell], [emptyCell], [truncCell], [plainCell]]]

/-- A document whose table has only the header row. -/
def docHeaderOnly : List (List TableRow) := [[[hdrCell]]]

/-- A document with a header row and one plain data row. -/
def docOnePlainRow : List (List TableRow) := [[[hdrCell], [plainCell]]]

/-- The follow-up endpoint body resolving to the text FULL. -/
def fullTextBody : String := "\x7b\"success\":true,\"textCont\":\"FULL\"\x7d"

/-- A follow-up network oracle serving exactly the fulltext reference of
the truncated fixture cell. -/
def dialogFetch : String → Option HttpResponse := fun u =>
  if u = base_url ++ "fulltext.php?id=1" then some (HttpResponse.mk 200 fullTextBody)
  else none

/-- A fallback oracle that extracts nothing. -/
def noFallback : String → String := fun _ => ""

/-- A record over the tanaman schema whose first field has the given value
and whose other fields are empty. -/
def mkNoPensijilanRecord (v : String) : Record :=
  DATA_FIELDS.map (fun f => (f, if f = "no_pensijilan" then v else ""))

/-- The record list the pipeline actually produces on the fixture document
with a discarded row: the resolved text lands on the record after the
truncated row's own record. -/
def expectedMisdirected : List Record :=
  [mkNoPensijilanRecord ("AAA, More ..."), mkNoPensijilanRecord ("FULL")]

/-- The HTML-entity-encoded body of the follow-up response in the
truncation-correctness property: the JSON object with a true success flag
and content A, a line-break tag, B, an escaped newline, C. -/
def c3EncodedBody : String :=
  "\x7b&quot;success&quot;:true,&quot;textCont&quot;:&quot;A<br>B\\nC&quot;\x7d"

/-- Claim C3: for a follow-up response whose body is the HTML-entity
encoded JSON object with success true and content A, line-break tag, B,
newline, C, the truncation resolver returns exactly the string A comma B
comma C: line-break markup and newlines become the comma-space delimiter,
remaining tags are stripped, duplicate delimiters are collapsed and a
trailing delimiter is trimmed. -/
theorem truncation_resolver_normalizes_example :
    get_full_text_from_dialog
      (fun u => if u = base_url ++ "fulltext.php?id=9" then
                  some (HttpResponse.mk 200 c3EncodedBody) else none)
      noFallback ("fulltext.php?id=9") base_url = some ("A, B, C") := by
  rfl

/-- Claim C1 fails on the code: on a document where the row before a
truncated row is discarded as all-empty, the row index recorded at
enqueue time counts all iterated rows while phase three indexes the
retained-row array, so the resolved text FULL is written into the record
of the following table row, and the truncated row's own record keeps its
placeholder. -/
theorem deferred_row_index_misdirected :
    extract_mygap_tanaman_data dialogFetch noFallback ("") ("") false 200 docWithDiscardedRow
      = some (expectedMisdirected, none) ∧
    (phase1 DATA_FIELDS [(("no_pensijilan"), 0)] [[emptyCell], [truncCell], [plainCell]]).2
      = [(("no_pensijilan"), ("fulltext.php?id=1"), 1)] ∧
    slotGet expectedMisdirected 0 ("no_pensijilan") = some ("AAA, More ...") ∧
    slotGet expectedMisdirected 1 ("no_pensijilan") = some ("FULL") := by
  refine ⟨by rfl, by rfl, by rfl, by rfl⟩

theorem dictSetNat_ne_nil (m : List (String × Nat)) (k : String) (v : Nat) :
    dictSetNat m k v ≠ [] := by
  cases m with
  | nil => simp [dictSetNat]
  | cons p rest =>
    obtain ⟨k0, v0⟩ := p
    by_cases h : k0 = k <;> simp [dictSetNat, h]

theorem buildTempMapAux_ne_nil_of_ne (fields : List String) (cells : List Cell) (j : Nat)
    (m : List (String × Nat)) (hm : m ≠ []) : buildTempMapAux fields cells j m ≠ [] := by
  induction cells generalizing j m with
  | nil => simpa [buildTempMapAux] using hm
  | cons c cs ih =>
    cases hdf : c.dataField with
    | none => simpa only [buildTempMapAux, hdf] using ih (j + 1) m hm
    | some df =>
      simp only [buildTempMapAux, hdf]
      by_cases hc : fields.contains df = true
      · rw [if_pos hc]
        exact ih (j + 1) (dictSetNat m df j) (dictSetNat_ne_nil m df j)
      · rw [if_neg hc]
        exact ih (j + 1) m hm

theorem buildTempMapAux_ne_nil_of_cell (fields : List String) (cells : List Cell)
    (c : Cell) (df : String) (hmem : c ∈ cells) (hdf : c.dataField = some df)
    (hct : fields.contains df = true) (j : Nat) (m : List (String × Nat)) :
    buildTempMapAux fields cells j m ≠ [] := by
  induction cells generalizing j m with
  | nil => cases hmem
  | cons c0 cs ih =>
    rcases List.mem_cons.mp hmem with hEq | hTail
    · subst hEq
      simp only [buildTempMapAux, hdf]
      rw [if_pos hct]
      exact buildTempMapAux_ne_nil_of_ne fields cs (j + 1) _ (dictSetNat_ne_nil m df j)
    · cases hdf0 : c0.dataField with
      | none => simpa only [buildTempMapAux, hdf0] using ih hTail (j + 1) m
      | some df0 =>
        simp only [buildTempMapAux, hdf0]
        by_cases hc0 : fields.contains df0 = true
        · rw [if_pos hc0]
          exact ih hTail (j + 1) (dictSetNat m df0 j)
        · rw [if_neg hc0]
          exact ih hTail (j + 1) m

theorem findHeaderAux_isSome (fields : List String) (rows : List TableRow)
    (r : TableRow) (hmem : r ∈ rows) (hr : buildTempMap fields r ≠ []) (i : Nat) :
    (findHeaderAux fields rows i).isSome = true := by
  induction rows generalizing i with
  | nil => cases hmem
  | cons r0 rs ih =>
    by_cases h0 : (buildTempMap fields r0).isEmpty
    · rcases List.mem_cons.mp hmem with hEq | hTail
      · subst hEq
        exact absurd (List.isEmpty_iff.mp h0) hr
      · simpa [findHeaderAux, h0] using ih hTail (i + 1)
    · simp [findHeaderAux, h0]

theorem tableHasTargetTh_exists (field : String) (rows : List TableRow)
    (h : tableHasTargetTh field rows = true) :
    ∃ r ∈ rows, ∃ c ∈ r, c.dataField = some field := by
  rcases List.any_eq_true.mp h with ⟨r, hr, hrow⟩
  rcases List.any_eq_true.mp hrow with ⟨c, hc, hcell⟩
  simp only [Bool.and_eq_true, beq_iff_eq] at hcell
  exact ⟨r, hr, c, hc, hcell.2⟩

theorem findHeader_isSome_of_target (fields : List String) (f0 : String)
    (hhead : fields.head? = some f0) (rows : List TableRow)
    (h : tableHasTargetTh f0 rows = true) : (findHeader fields rows).isSome = true := by
  rcases tableHasTargetTh_exists f0 rows h with ⟨r, hr, c, hc, hdf⟩
  have hct : fields.contains f0 = true := by
    cases fields with
    | nil => simp at hhead
    | cons f fs =>
      simp only [List.head?_cons, Option.some.injEq] at hhead
      subst hhead
      simp
  have hmap : buildTempMap fields r ≠ [] :=
    buildTempMapAux_ne_nil_of_cell fields r c f0 hc hdf hct 0 []
  exact findHeaderAux_isSome fields rows r hr hmap 0

/-- Claim C2 fails on the code as stated: the producer checks for status
exactly 200, not for the 2xx class.  At status 204 — a 2xx success — on a
document whose table and schema fields are present and locatable, the
producer still returns the failure value. -/
theorem extract_fails_on_204_despite_schema :
    extract_mygap_tanaman_data dialogFetch noFallback ("") ("") false 204 docWithDiscardedRow
      = none ∧
    (200 ≤ 204 ∧ 204 < 300) ∧
    ∃ t, findTargetTable DATA_FIELDS docWithDiscardedRow = some t ∧
      (findHeader DATA_FIELDS t).isSome = true := by
  refine ⟨rfl, by decide, ⟨[[hdrCell], [emptyCell], [truncCell], [plainCell]], rfl, rfl⟩⟩

/-- Claim C2 as amended: the producer function returns the failure value
exactly when the primary fetch status is not exactly 200, or when no
table of the document contains a th cell tagged with the schema's first
field identifier (so the table cannot be located); in every such case no
partial record list is returned, and a document with no matching column
tags in particular yields this fatal failure, never an empty record
list.  Both category producers in the sources behave this way. -/
theorem extract_none_iff_status_or_table (fetch : String → Option HttpResponse)
    (fb : String → String) (ea ts : String) (save : Bool) (status : Nat)
    (doc : List (List TableRow)) :
    (extract_mygap_tanaman_data fetch fb ea ts save status doc = none ↔
      status ≠ 200 ∨ findTargetTable DATA_FIELDS doc = none) ∧
    (extract_mygap_am_data ea ts save status doc = none ↔
      status ≠ 200 ∨ findTargetTable AM_DATA_FIELDS doc = none) := by
  constructor
  · by_cases hs : status = 200
    · subst hs
      cases h : findTargetTable DATA_FIELDS doc with
      | none => simp [extract_mygap_tanaman_data, h]
      | some t =>
        have h' : doc.find? (tableHasTargetTh ("no_pensijilan")) = some t := h
        have hh : (findHeader DATA_FIELDS t).isSome = true :=
          findHeader_isSome_of_target DATA_FIELDS ("no_pensijilan") rfl t (List.find?_some h')
        rcases Option.isSome_iff_exists.mp hh with ⟨⟨hIdx, colMap⟩, hfh⟩
        simp [extract_mygap_tanaman_data, h, hfh]
    · simp [extract_mygap_tanaman_data, hs]
  · by_cases hs : status = 200
    · subst hs
      cases h : findTargetTable AM_DATA_FIELDS doc with
      | none => simp [extract_mygap_am_data, h]
      | some t =>
        have h' : doc.find? (tableHasTargetTh ("no_pensijilan")) = some t := h
        have hh : (findHeader AM_DATA_FIELDS t).isSome = true :=
          findHeader_isSome_of_target AM_DATA_FIELDS ("no_pensijilan") rfl t (List.find?_some h')
        rcases Option.isSome_iff_exists.mp hh with ⟨⟨hIdx, colMap⟩, hfh⟩
        simp [extract_mygap_am_data, h, hfh]
    · simp [extract_mygap_am_data, hs]

/-- Witness for the amended claim C2, at a concrete failing status. -/
theorem extract_none_iff_status_or_table_witness :
    extract_mygap_tanaman_data dialogFetch noFallback ("") ("") false 500 docWithDiscardedRow
      = none := by
  exact (extract_none_iff_status_or_table dialogFetch noFallback ("") ("") false 500
    docWithDiscardedRow).1.mpr (Or.inl (by decide))

/-- Claim C4: the freshness cache gate returns the newest persisted
artifact without invoking the producer whenever its age is strictly below
one day and it loads; it invokes the producer with the save flag set when
the newest artifact is at least one day old or no artifact exists; and
when a fresh artifact fails to load it falls back to invoking the
producer.  This is the gate of every category handler in main.py. -/
theorem freshness_gate_policy (now : Int) (files : List (Int × Option Json))
    (m : Int) (c : Option Json) (raw : Json) :
    (get_mygap_data now [] = GateDecision.fetch true) ∧
    (maxByMtime files = some (m, c) →
      ((now - m < oneDaySeconds → tryLoadCache c = some raw →
          get_mygap_data now files = GateDecision.cached raw) ∧
       (now - m < oneDaySeconds → tryLoadCache c = none →
          get_mygap_data now files = GateDecision.fetch true) ∧
       (oneDaySeconds ≤ now - m → get_mygap_data now files = GateDecision.fetch true))) := by
  refine ⟨rfl, fun hmax => ⟨?_, ?_, ?_⟩⟩
  · intro hage hload
    simp [get_mygap_data, hmax, hage, hload]
  · intro hage hload
    simp [get_mygap_data, hmax, hage, hload]
  · intro hage
    have : ¬ (now - m < oneDaySeconds) := not_lt.mpr hage
    simp [get_mygap_data, hmax, this]

/-- Witness for claim C4: a 23-hour-old readable artifact is served from
cache, a 25-hour-old one and an unreadable fresh one cause a producer
invocation with the save flag set. -/
theorem freshness_gate_policy_witness :
    get_mygap_data 82800 [(0, some (Json.arr []))] = GateDecision.cached (Json.arr []) ∧
    get_mygap_data 90000 [(0, some (Json.arr []))] = GateDecision.fetch true ∧
    get_mygap_data 3600 [(0, none)] = GateDecision.fetch true := by
  refine ⟨?_, ?_, ?_⟩
  · exact ((freshness_gate_policy 82800 [(0, some (Json.arr []))] 0 (some (Json.arr []))
      (Json.arr [])).2 rfl).1 (by decide) rfl
  · exact ((freshness_gate_policy 90000 [(0, some (Json.arr []))] 0 (some (Json.arr []))
      (Json.arr [])).2 rfl).2.2 (by decide)
  · exact ((freshness_gate_policy 3600 [(0, none)] 0 none (Json.arr [])).2 rfl).2.1
      (by decide) rfl

theorem jsonToRecord_recordToJson (r : Record) : jsonToRecord (recordToJson r) = some r := by
  induction r with
  | nil => rfl
  | cons p rest ih =>
    obtain ⟨k, v⟩ := p
    simp only [recordToJson, jsonToRecord, List.map_cons, recordFromJsonFields] at *
    simp [ih]

theorem jsonToRecords_map_recordToJson (data : List Record) :
    jsonToRecords (Json.arr (data.map recordToJson)) = some data := by
  induction data with
  | nil => rfl
  | cons r rest ih =>
    simp only [jsonToRecords, List.map_cons, recordsFromJsonList] at *
    simp [ih, jsonToRecord_recordToJson]

/-- Claim C5: persisting an extraction result and reloading it through
the cache gate's reader reproduces the identical record list, and both
accepted on-disk forms — the metadata-wrapped object and the bare array —
parse to the same record list. -/
theorem save_then_load_roundtrip (ea ts : String) (fields : List String)
    (data : List Record) (h : data ≠ []) :
    ∃ artifact, save_data ea ts fields data = some artifact ∧
      tryLoadCache (some artifact) = some (Json.arr (data.map recordToJson)) ∧
      tryLoadCache (some (Json.arr (data.map recordToJson)))
        = some (Json.arr (data.map recordToJson)) ∧
      jsonToRecords (Json.arr (data.map recordToJson)) = some data := by
  have hne : data.isEmpty = false := by
    cases data with
    | nil => exact absurd rfl h
    | cons a l => rfl
  refine ⟨Json.obj
      [(("metadata"), Json.obj
        [(("extracted_at"), Json.str ea),
         (("timestamp"), Json.str ts),
         (("total_records"), Json.num (data.length : Int)),
         (("fields"), Json.arr (fields.map Json.str))]),
       (("data"), Json.arr (data.map recordToJson))],
    ?_, rfl, rfl, jsonToRecords_map_recordToJson data⟩
  simp [save_data, hne]

/-- Witness for claim C5 at a concrete one-record result. -/
theorem save_then_load_roundtrip_witness :
    ∃ artifact, save_data ("e") ("t") DATA_FIELDS [[(("a"), ("b"))]] = some artifact ∧
      tryLoadCache (some artifact)
        = some (Json.arr ([[(("a"), ("b"))]].map recordToJson)) ∧
      tryLoadCache (some (Json.arr ([[(("a"), ("b"))]].map recordToJson)))
        = some (Json.arr ([[(("a"), ("b"))]].map recordToJson)) ∧
      jsonToRecords (Json.arr ([[(("a"), ("b"))]].map recordToJson))
        = some [[(("a"), ("b"))]] := by
  exact save_then_load_roundtrip ("e") ("t") DATA_FIELDS [[(("a"), ("b"))]] (by simp)

theorem save_gate_isSome (save : Bool) (final : List Record) (ea ts : String)
    (fields : List String) :
    (if save && !final.isEmpty then save_data ea ts fields final else none).isSome = true ↔
      (save = true ∧ final ≠ []) := by
  cases save <;> cases final <;> simp [save_data]

theorem extract_tanaman_artifact_shape (fetch : String → Option HttpResponse)
    (fb : String → String) (ea ts : String) (save : Bool) (status : Nat)
    (doc : List (List TableRow)) (recs : List Record) (art : Option Json) :
    extract_mygap_tanaman_data fetch fb ea ts save status doc = some (recs, art) →
    art = (if save && !recs.isEmpty then save_data ea ts DATA_FIELDS recs else none) := by
  intro h
  unfold extract_mygap_tanaman_data at h
  split at h
  · cases h
  · split at h
    · cases h
    · split at h
      · cases h
      · simp only [Option.some.injEq, Prod.mk.injEq] at h
        obtain ⟨hrecs, hart⟩ := h
        subst hrecs
        exact hart.symm

theorem extract_am_artifact_shape (ea ts : String) (save : Bool) (status : Nat)
    (doc : List (List TableRow)) (recs : List Record) (art : Option Json) :
    extract_mygap_am_data ea ts save status doc = some (recs, art) →
    art = (if save && !recs.isEmpty then save_data ea ts AM_DATA_FIELDS recs else none) := by
  intro h
  unfold extract_mygap_am_data at h
  split at h
  · cases h
  · split at h
    · cases h
    · split at h
      · cases h
      · simp only [Option.some.injEq, Prod.mk.injEq] at h
        obtain ⟨hrecs, hart⟩ := h
        subst hrecs
        exact hart.symm

/-- Claim C10: a successful run with zero retained records writes no
artifact even when the save flag is set — the persist step runs exactly
when the flag is set and the record list is non-empty, in both category
producers. -/
theorem empty_result_never_saved (fetch : String → Option HttpResponse)
    (fb : String → String) (ea ts : String) (save : Bool) (status : Nat)
    (doc : List (List TableRow)) (recs : List Record) (art : Option Json) :
    (extract_mygap_tanaman_data fetch fb ea ts save status doc = some (recs, art) →
      (art.isSome = true ↔ (save = true ∧ recs ≠ []))) ∧
    (extract_mygap_am_data ea ts save status doc = some (recs, art) →
      (art.isSome = true ↔ (save = true ∧ recs ≠ []))) := by
  constructor
  · intro h
    rw [extract_tanaman_artifact_shape fetch fb ea ts save status doc recs art h]
    exact save_gate_isSome save recs ea ts DATA_FIELDS
  · intro h
    rw [extract_am_artifact_shape ea ts save status doc recs art h]
    exact save_gate_isSome save recs ea ts AM_DATA_FIELDS

/-- Witness for claim C10: on a document with only a header row the run
succeeds with zero records, and with the save flag set no artifact is
written. -/
theorem empty_result_never_saved_witness :
    extract_mygap_tanaman_data dialogFetch noFallback ("") ("") true 200 docHeaderOnly
      = some ([], none) ∧
    ((none : Option Json).isSome = true ↔ (true = true ∧ ([] : List Record) ≠ [])) := by
  refine ⟨rfl, ?_⟩
  exact (empty_result_never_saved dialogFetch noFallback ("") ("") true 200 docHeaderOnly
    [] none).1 rfl

theorem phase1Aux_records (fields : List String) (colMap : List (String × Nat))
    (rows : List TableRow) (i : Nat) :
    (phase1Aux fields colMap rows i).1 =
      (rows.filter (fun cells => !cells.isEmpty && rowHasData fields colMap cells)).map
        (rowRecord fields colMap) := by
  induction rows generalizing i with
  | nil => rfl
  | cons cells rest ih =>
    by_cases he : cells.isEmpty
    · simp [phase1Aux, he, ih (i + 1)]
    · by_cases hd : rowHasData fields colMap cells
      · simp [phase1Aux, he, hd, ih (i + 1)]
      · simp [phase1Aux, he, hd, ih (i + 1)]

theorem phase1Am_records (colMap : List (String × Nat)) (rows : List TableRow) :
    phase1Am colMap rows =
      (rows.filter (fun cells => !cells.isEmpty && amRowHasData colMap cells)).map
        (amRowRecord colMap) := by
  induction rows with
  | nil => rfl
  | cons cells rest ih =>
    by_cases he : cells.isEmpty
    · simp [phase1Am, he, ih]
    · by_cases hd : amRowHasData colMap cells
      · simp [phase1Am, he, hd, ih]
      · simp [phase1Am, he, hd, ih]

/-- Claim C7: in both category extractors, a table row whose every
extracted field value is empty (and a row without cells) contributes no
record, and every row with at least one non-empty field value contributes
its record, in order: the retained records are exactly the per-row
records of the rows with cells and some non-empty value. -/
theorem discard_rule_characterization (colMap : List (String × Nat)) (rows : List TableRow) :
    (phase1 DATA_FIELDS colMap rows).1 =
      (rows.filter (fun cells => !cells.isEmpty && rowHasData DATA_FIELDS colMap cells)).map
        (rowRecord DATA_FIELDS colMap) ∧
    (∀ cells, rowHasData DATA_FIELDS colMap cells = true ↔
      ∃ f ∈ DATA_FIELDS, fieldValue colMap cells f ≠ "") ∧
    phase1Am colMap rows =
      (rows.filter (fun cells => !cells.isEmpty && amRowHasData colMap cells)).map
        (amRowRecord colMap) := by
  refine ⟨phase1Aux_records DATA_FIELDS colMap rows 0, ?_, phase1Am_records colMap rows⟩
  intro cells
  simp [rowHasData, List.any_eq_true]

/-- Claim C8 fails on the code as stated: when a truncated cell carries a
usable follow-up reference, the extractor does enqueue the deferred
request, but it stores the raw marker text as the placeholder — the
cleaned prefix is produced only in the branch with no usable link. -/
theorem marker_placeholder_is_raw_text :
    fieldRequest [(("no_pensijilan"), 0)] [truncCell] 0 ("no_pensijilan")
      = some (("no_pensijilan"), ("fulltext.php?id=1"), 0) ∧
    fieldValue [(("no_pensijilan"), 0)] [truncCell] ("no_pensijilan") = ("AAA, More ...") ∧
    cleanedMoreText ("AAA, More ...") = ("AAA") ∧
    ("AAA, More ..." : String) ≠ ("AAA") := by
  refine ⟨rfl, rfl, rfl, by decide⟩

/-- Claim C8 as amended: when a cell's text matches the truncation marker
and the cell carries a usable follow-up query reference, the row
extractor enqueues the deferred request of field, reference and row
index, and stores the raw cell text — marker included — as the field's
placeholder value; the cleaned prefix is stored only when no usable
reference exists. -/
theorem enqueue_stores_raw_placeholder (colMap : List (String × Nat)) (cells : TableRow)
    (field : String) (col : Nat) (cell : Cell) (a : Anchor) (u : String) (i : Nat)
    (h1 : mapLookup colMap field = some col)
    (h2 : cells.get? col = some cell)
    (h3 : strContainsSub cell.text ("More") = true)
    (h4 : strContainsSub cell.text ("...") = true)
    (h5 : findMoreLink cell = some a)
    (h6 : anchorQueryUrl a = some u)
    (h7 : u ≠ "javascript:void(0);") :
    fieldValue colMap cells field = cell.text ∧
    fieldRequest colMap cells i field = some (field, u, i) := by
  have h2' : cells[col]? = some cell := by
    rw [← List.get?_eq_getElem?]
    exact h2
  constructor
  · simp [fieldValue, h1, h2', h3, h4, h5]
  · simp [fieldRequest, h1, h2', h3, h4, h5, h6, h7]

/-- Witness for the amended claim C8, at the concrete truncated fixture
cell and row index three. -/
theorem enqueue_stores_raw_placeholder_witness :
    fieldValue [(("no_pensijilan"), 0)] [truncCell] ("no_pensijilan") = truncCell.text ∧
    fieldRequest [(("no_pensijilan"), 0)] [truncCell] 3 ("no_pensijilan")
      = some (("no_pensijilan"), ("fulltext.php?id=1"), 3) := by
  exact enqueue_stores_raw_placeholder [(("no_pensijilan"), 0)] [truncCell]
    ("no_pensijilan") 0 truncCell (Anchor.mk (some ("fulltext.php?id=1")) none)
    ("fulltext.php?id=1") 3 rfl rfl rfl rfl rfl rfl (by decide)

theorem dictSet_find?_ne (m : Record) (g f c : String) (hne : f ≠ g) :
    (dictSet m g c).find? (fun p => p.1 == f) = m.find? (fun p => p.1 == f) := by
  induction m with
  | nil =>
    simp only [dictSet]
    rw [List.find?_cons_of_neg _ (by simp [Ne.symm hne])]
  | cons p rest ih =>
    obtain ⟨k0, v0⟩ := p
    by_cases hk : k0 = g
    · subst hk
      have hd : dictSet ((k0, v0) :: rest) k0 c = (k0, c) :: rest := by simp [dictSet]
      rw [hd, List.find?_cons_of_neg _ (by simp [Ne.symm hne]),
          List.find?_cons_of_neg _ (by simp [Ne.symm hne])]
    · simp only [dictSet, if_neg hk]
      by_cases hkf : (k0 == f) = true
      · rw [List.find?_cons_of_pos _ (by simpa using hkf),
            List.find?_cons_of_pos _ (by simpa using hkf)]
      · rw [List.find?_cons_of_neg _ (by simpa using hkf),
            List.find?_cons_of_neg _ (by simpa using hkf)]
        exact ih

theorem updateAt_slot_ne (recs : List Record) (i j : Nat) (f g c : String)
    (h : i ≠ j ∨ f ≠ g) :
    slotGet (updateAt recs j g c) i f = slotGet recs i f := by
  by_cases hij : i = j
  · subst hij
    have hfg : f ≠ g := by
      rcases h with hi | hf
      · exact absurd rfl hi
      · exact hf
    unfold slotGet updateAt
    by_cases hlt : i < recs.length
    · rw [List.get?_set_eq_of_lt _ hlt]
      cases hold : recs.get? i with
      | none => exact absurd (List.get?_eq_none.mp hold) (not_le.mpr hlt)
      | some r =>
        simp only [Option.getD_some, Option.some_bind]
        rw [dictSet_find?_ne r g f c hfg]
    · have hlen : recs.length ≤ i := not_lt.mp hlt
      have h1 : (recs.set i (dictSet ((recs.get? i).getD []) g c)).get? i = none :=
        List.get?_eq_none.mpr (by rw [List.length_set]; exact hlen)
      have h2 : recs.get? i = none := List.get?_eq_none.mpr hlen
      rw [h1, h2]
  · unfold slotGet updateAt
    rw [List.get?_set_ne _ _ (Ne.symm hij)]

theorem innerFold_slot_frame (m : List (String × String)) (recs : List Record)
    (i0 i : Nat) (f : String) (h : i ≠ i0 ∨ ∀ c, (f, c) ∉ m) :
    slotGet (m.foldl (fun acc2 fc =>
      if fc.2 ≠ "" then updateAt acc2 i0 fc.1 fc.2 else acc2) recs) i f
      = slotGet recs i f := by
  induction m generalizing recs with
  | nil => rfl
  | cons fc rest ih =>
    have hrest : i ≠ i0 ∨ ∀ c, (f, c) ∉ rest := by
      rcases h with hi | hnot
      · exact Or.inl hi
      · exact Or.inr (fun c hc => hnot c (List.mem_cons_of_mem _ hc))
    have hstep : slotGet (if fc.2 ≠ "" then updateAt recs i0 fc.1 fc.2 else recs) i f
        = slotGet recs i f := by
      by_cases hne : fc.2 = ""
      · simp [hne]
      · rw [if_pos hne]
        apply updateAt_slot_ne
        rcases h with hi | hnot
        · exact Or.inl hi
        · right
          intro hff
          subst hff
          exact hnot fc.2 (by simpa using List.mem_cons_self fc rest)
    rw [List.foldl_cons]
    exact (ih _ hrest).trans hstep

theorem phase3_cons (recs : List Record) (i0 : Nat) (m : List (String × String))
    (rest : List (Nat × List (String × String))) :
    phase3 recs ((i0, m) :: rest) =
      phase3 (if i0 < recs.length then
          m.foldl (fun acc2 fc =>
            if fc.2 ≠ "" then updateAt acc2 i0 fc.1 fc.2 else acc2) recs
        else recs) rest := rfl

theorem resultsMem_nil (i : Nat) (f : String) : ¬ resultsMem [] i f := by
  rintro ⟨m, hm, -⟩
  cases hm

theorem phase3_slot_frame (results : List (Nat × List (String × String)))
    (recs : List Record) (i : Nat) (f : String) (h : ¬ resultsMem results i f) :
    slotGet (phase3 recs results) i f = slotGet recs i f := by
  induction results generalizing recs with
  | nil => rfl
  | cons entry rest ih =>
    obtain ⟨i0, m⟩ := entry
    have hrest : ¬ resultsMem rest i f := by
      rintro ⟨m', hm', hc⟩
      exact h ⟨m', List.mem_cons_of_mem _ hm', hc⟩
    have hhead : i ≠ i0 ∨ ∀ c, (f, c) ∉ m := by
      by_cases hi : i = i0
      · right
        intro c hc
        exact h ⟨m, by rw [hi]; exact List.mem_cons_self _ _, c, hc⟩
      · exact Or.inl hi
    rw [phase3_cons]
    refine (ih _ hrest).trans ?_
    by_cases hlt : i0 < recs.length
    · rw [if_pos hlt]
      exact innerFold_slot_frame m recs i0 i f hhead
    · rw [if_neg hlt]

theorem updateAt_length (recs : List Record) (i : Nat) (f c : String) :
    (updateAt recs i f c).length = recs.length := by
  unfold updateAt
  exact List.length_set recs i _

theorem innerFold_length (m : List (String × String)) (recs : List Record) (i0 : Nat) :
    (m.foldl (fun acc2 fc =>
      if fc.2 ≠ "" then updateAt acc2 i0 fc.1 fc.2 else acc2) recs).length
      = recs.length := by
  induction m generalizing recs with
  | nil => rfl
  | cons fc rest ih =>
    rw [List.foldl_cons, ih]
    by_cases hne : fc.2 = ""
    · simp [hne]
    · rw [if_pos hne, updateAt_length]

theorem phase3_length (results : List (Nat × List (String × String))) (recs : List Record) :
    (phase3 recs results).length = recs.length := by
  induction results generalizing recs with
  | nil => rfl
  | cons entry rest ih =>
    obtain ⟨i0, m⟩ := entry
    rw [phase3_cons, ih]
    by_cases hlt : i0 < recs.length
    · rw [if_pos hlt, innerFold_length]
    · rw [if_neg hlt]

theorem dictSet_mem (m : List (String × String)) (f0 c0 : String) (p : String × String)
    (h : p ∈ dictSet m f0 c0) : p = (f0, c0) ∨ p ∈ m := by
  induction m with
  | nil => simpa [dictSet] using h
  | cons q rest ih =>
    obtain ⟨k0, v0⟩ := q
    by_cases hk : k0 = f0
    · subst hk
      simp only [dictSet, if_pos rfl] at h
      rcases List.mem_cons.mp h with hEq | hTail
      · exact Or.inl hEq
      · exact Or.inr (List.mem_cons_of_mem _ hTail)
    · simp only [dictSet, if_neg hk] at h
      rcases List.mem_cons.mp h with hEq | hTail
      · exact Or.inr (by rw [hEq]; exact List.mem_cons_self _ _)
      · rcases ih hTail with h1 | h2
        · exact Or.inl h1
        · exact Or.inr (List.mem_cons_of_mem _ h2)

theorem resultsInsert_mem (res : List (Nat × List (String × String))) (i0 : Nat)
    (f0 c0 : String) (i : Nat) (f : String)
    (h : resultsMem (resultsInsert res i0 f0 c0) i f) :
    (i = i0 ∧ f = f0) ∨ resultsMem res i f := by
  induction res with
  | nil =>
    obtain ⟨m, hm, c, hc⟩ := h
    simp only [resultsInsert, List.mem_singleton, Prod.mk.injEq] at hm
    obtain ⟨hi, hm'⟩ := hm
    subst hi
    subst hm'
    rcases List.mem_singleton.mp hc with hEq
    simp only [Prod.mk.injEq] at hEq
    exact Or.inl ⟨rfl, hEq.1⟩
  | cons entry rest ih =>
    obtain ⟨i1, m1⟩ := entry
    by_cases hi1 : i1 = i0
    · subst hi1
      obtain ⟨m, hm, c, hc⟩ := h
      simp only [resultsInsert, if_pos rfl] at hm
      rcases List.mem_cons.mp hm with hEq | hTail
      · simp only [Prod.mk.injEq] at hEq
        obtain ⟨hi, hm'⟩ := hEq
        subst hi
        subst hm'
        rcases dictSet_mem m1 f0 c0 (f, c) hc with hEq2 | hMem
        · simp only [Prod.mk.injEq] at hEq2
          exact Or.inl ⟨rfl, hEq2.1⟩
        · exact Or.inr ⟨m1, List.mem_cons_self _ _, c, hMem⟩
      · exact Or.inr ⟨m, List.mem_cons_of_mem _ hTail, c, hc⟩
    · obtain ⟨m, hm, c, hc⟩ := h
      simp only [resultsInsert, if_neg hi1] at hm
      rcases List.mem_cons.mp hm with hEq | hTail
      · exact Or.inr ⟨m, by rw [hEq]; exact List.mem_cons_self _ _, c, hc⟩
      · rcases ih ⟨m, hTail, c, hc⟩ with h1 | ⟨m', hm', c', hc'⟩
        · exact Or.inl h1
        · exact Or.inr ⟨m', List.mem_cons_of_mem _ hm', c', hc'⟩

theorem bffc_sources_aux (fetch : String → Option HttpResponse) (fb : String → String)
    (baseUrl : String) (reqs : List DialogRequest)
    (acc : List (Nat × List (String × String))) (i : Nat) (f : String)
    (h : resultsMem (reqs.foldl
      (fun results req =>
        match get_full_text_from_dialog fetch fb req.2.1 baseUrl with
        | some c => if c ≠ "" then resultsInsert results req.2.2 req.1 c else results
        | none => results) acc) i f) :
    resultsMem acc i f ∨ ∃ q ∈ reqs, q.1 = f ∧ q.2.2 = i ∧
      ∃ c, get_full_text_from_dialog fetch fb q.2.1 baseUrl = some c ∧ c ≠ "" := by
  induction reqs generalizing acc with
  | nil => exact Or.inl h
  | cons q rest ih =>
    rw [List.foldl_cons] at h
    rcases ih _ h with hacc | ⟨q', hq', h1, h2, c', hc1, hc2⟩
    · cases hg : get_full_text_from_dialog fetch fb q.2.1 baseUrl with
      | none =>
        simp only [hg] at hacc
        exact Or.inl hacc
      | some c =>
        simp only [hg] at hacc
        by_cases hc : c ≠ ""
        · rw [if_pos hc] at hacc
          rcases resultsInsert_mem acc q.2.2 q.1 c i f hacc with ⟨hi, hf⟩ | hmem
          · exact Or.inr ⟨q, List.mem_cons_self _ _, hf.symm, hi.symm, c, hg, hc⟩
          · exact Or.inl hmem
        · rw [if_neg hc] at hacc
          exact Or.inl hacc
    · exact Or.inr ⟨q', List.mem_cons_of_mem _ hq', h1, h2, c', hc1, hc2⟩

theorem bffc_sources (fetch : String → Option HttpResponse) (fb : String → String)
    (baseUrl : String) (reqs : List DialogRequest) (i : Nat) (f : String)
    (h : resultsMem (batch_fetch_full_content fetch fb baseUrl reqs) i f) :
    ∃ q ∈ reqs, q.1 = f ∧ q.2.2 = i ∧
      ∃ c, get_full_text_from_dialog fetch fb q.2.1 baseUrl = some c ∧ c ≠ "" := by
  rcases bffc_sources_aux fetch fb baseUrl reqs [] i f h with hacc | hex
  · exact absurd hacc (resultsMem_nil i f)
  · exact hex

/-- Claim C9: truncation resolution writes only into the owning row-index
and field slot of a successfully resolved deferred request.  The retained
record count never changes, and any slot not targeted by some request
that resolved to non-empty content — in particular every slot when a
request's follow-up fails with a non-2xx response or an exception, and
every record at all when the recorded row index is out of range — keeps
exactly its phase-one value, and the run completes with a total result. -/
theorem resolution_writes_only_owned_slots (fetch : String → Option HttpResponse)
    (fb : String → String) (baseUrl : String) (recs : List Record)
    (reqs : List DialogRequest) :
    (phase3 recs (batch_fetch_full_content fetch fb baseUrl reqs)).length = recs.length ∧
    (∀ i f, (¬ ∃ q ∈ reqs, q.1 = f ∧ q.2.2 = i ∧
        ∃ c, get_full_text_from_dialog fetch fb q.2.1 baseUrl = some c ∧ c ≠ "") →
      slotGet (phase3 recs (batch_fetch_full_content fetch fb baseUrl reqs)) i f
        = slotGet recs i f) ∧
    (∀ mu, (∀ resp, fetch (if strStarts mu ("fulltext.php") then baseUrl ++ mu else mu)
          = some resp → resp.status ≠ 200) →
      get_full_text_from_dialog fetch fb mu baseUrl = none) := by
  refine ⟨phase3_length _ _, fun i f hno => ?_, fun mu hfail => ?_⟩
  · apply phase3_slot_frame
    intro hmem
    exact hno (bffc_sources fetch fb baseUrl reqs i f hmem)
  · unfold get_full_text_from_dialog
    cases hf : fetch (if strStarts mu ("fulltext.php") then baseUrl ++ mu else mu) with
    | none => simp only [hf]
    | some resp =>
      simp only [hf]
      rw [if_neg (hfail resp hf)]

/-- Witness for claim C9: with no deferred requests every slot keeps its
phase-one value. -/
theorem resolution_writes_only_owned_slots_witness :
    slotGet (phase3 [[(("a"), ("b"))]]
        (batch_fetch_full_content dialogFetch noFallback base_url [])) 0 ("a")
      = some ("b") := by
  exact ((resolution_writes_only_owned_slots dialogFetch noFallback base_url
    [[(("a"), ("b"))]] []).2.1 0 ("a") (by simp)).trans rfl

theorem rowRecord_keys (fields : List String) (colMap : List (String × Nat))
    (cells : TableRow) : (rowRecord fields colMap cells).map Prod.fst = fields := by
  unfold rowRecord
  induction fields with
  | nil => rfl
  | cons f fs ih => simp [ih]

theorem mapped_pair_keys (fields : List String) (v : String → String) :
    (fields.map (fun f => (f, v f))).map Prod.fst = fields := by
  induction fields with
  | nil => rfl
  | cons f fs ih => simp [ih]

theorem amRowRecord_keys (colMap : List (String × Nat)) (cells : TableRow) :
    (amRowRecord colMap cells).map Prod.fst = AM_DATA_FIELDS := by
  unfold amRowRecord
  exact mapped_pair_keys AM_DATA_FIELDS _

theorem fieldRequest_eq (colMap : List (String × Nat)) (cells : TableRow) (i : Nat)
    (f : String) (q : DialogRequest) (h : fieldRequest colMap cells i f = some q) :
    q.1 = f ∧ q.2.2 = i := by
  unfold fieldRequest at h
  cases hml : mapLookup colMap f with
  | none =>
    simp only [hml] at h
    cases h
  | some col =>
    simp only [hml] at h
    cases hcell : cells.get? col with
    | none =>
      simp only [hcell] at h
      cases h
    | some cell =>
      simp only [hcell] at h
      by_cases hmk : (strContainsSub cell.text ("More")
          && strContainsSub cell.text ("...")) = true
      · rw [if_pos hmk] at h
        cases hlink : findMoreLink cell with
        | none =>
          simp only [hlink] at h
          cases h
        | some a =>
          simp only [hlink] at h
          cases hurl : anchorQueryUrl a with
          | none =>
            simp only [hurl] at h
            cases h
          | some u =>
            simp only [hurl] at h
            by_cases hjs : u ≠ "javascript:void(0);"
            · rw [if_pos hjs] at h
              cases h
              exact ⟨rfl, rfl⟩
            · rw [if_neg hjs] at h
              cases h
      · rw [if_neg hmk] at h
        cases h

theorem rowRequests_field_mem (fields : List String) (colMap : List (String × Nat))
    (cells : TableRow) (i : Nat) (q : DialogRequest)
    (h : q ∈ rowRequests fields colMap cells i) : q.1 ∈ fields := by
  rcases List.mem_filterMap.mp h with ⟨f, hf, hreq⟩
  rw [(fieldRequest_eq colMap cells i f q hreq).1]
  exact hf

theorem phase1Aux_requests_field_mem (fields : List String) (colMap : List (String × Nat))
    (rows : List TableRow) (i : Nat) (q : DialogRequest)
    (h : q ∈ (phase1Aux fields colMap rows i).2) : q.1 ∈ fields := by
  induction rows generalizing i with
  | nil => cases h
  | cons cells rest ih =>
    by_cases he : cells.isEmpty
    · rw [show (phase1Aux fields colMap (cells :: rest) i).2
        = (phase1Aux fields colMap rest (i + 1)).2 from by simp [phase1Aux, he]] at h
      exact ih (i + 1) h
    · have hsplit : (phase1Aux fields colMap (cells :: rest) i).2
          = rowRequests fields colMap cells i ++ (phase1Aux fields colMap rest (i + 1)).2 := by
        by_cases hd : rowHasData fields colMap cells
        · simp [phase1Aux, he, hd]
        · simp [phase1Aux, he, hd]
      rw [hsplit] at h
      rcases List.mem_append.mp h with h1 | h2
      · exact rowRequests_field_mem fields colMap cells i q h1
      · exact ih (i + 1) h2

theorem dictSet_keys_of_mem (r : Record) (f c : String) (h : f ∈ r.map Prod.fst) :
    (dictSet r f c).map Prod.fst = r.map Prod.fst := by
  induction r with
  | nil => cases h
  | cons p rest ih =>
    obtain ⟨k0, v0⟩ := p
    by_cases hk : k0 = f
    · subst hk
      simp [dictSet]
    · simp only [dictSet, if_neg hk, List.map_cons]
      simp only [List.map_cons] at h
      rcases List.mem_cons.mp h with hEq | hTail
      · exact absurd hEq.symm hk
      · rw [ih hTail]

theorem updateAt_keys (recs : List Record) (i : Nat) (f c : String) (fields : List String)
    (hall : ∀ r ∈ recs, r.map Prod.fst = fields) (hf : f ∈ fields)
    (hlt : i < recs.length) :
    ∀ r ∈ updateAt recs i f c, r.map Prod.fst = fields := by
  intro r hr
  rcases List.mem_or_eq_of_mem_set hr with hmem | heq
  · exact hall r hmem
  · subst heq
    cases hold : recs.get? i with
    | none => exact absurd (List.get?_eq_none.mp hold) (not_le.mpr hlt)
    | some r0 =>
      have hkeys : r0.map Prod.fst = fields := hall r0 (List.get?_mem hold)
      simp only [Option.getD_some]
      rw [dictSet_keys_of_mem r0 f c (by rw [hkeys]; exact hf), hkeys]

theorem innerFold_keys (m : List (String × String)) (recs : List Record) (i0 : Nat)
    (fields : List String) (hall : ∀ r ∈ recs, r.map Prod.fst = fields)
    (hflds : ∀ fc ∈ m, fc.1 ∈ fields) (hlt : i0 < recs.length) :
    ∀ r ∈ m.foldl (fun acc2 fc =>
      if fc.2 ≠ "" then updateAt acc2 i0 fc.1 fc.2 else acc2) recs,
      r.map Prod.fst = fields := by
  induction m generalizing recs with
  | nil => exact hall
  | cons fc rest ih =>
    rw [List.foldl_cons]
    have hstep : ∀ r ∈ (if fc.2 ≠ "" then updateAt recs i0 fc.1 fc.2 else recs),
        r.map Prod.fst = fields := by
      by_cases hne : fc.2 = ""
      · simpa [hne] using hall
      · rw [if_pos hne]
        exact updateAt_keys recs i0 fc.1 fc.2 fields hall
          (hflds fc (List.mem_cons_self _ _)) hlt
    have hlen : (if fc.2 ≠ "" then updateAt recs i0 fc.1 fc.2 else recs).length
        = recs.length := by
      by_cases hne : fc.2 = ""
      · simp [hne]
      · rw [if_pos hne, updateAt_length]
    exact ih _ hstep (fun fc2 h2 => hflds fc2 (List.mem_cons_of_mem _ h2))
      (by rw [hlen]; exact hlt)

theorem phase3_keys (results : List (Nat × List (String × String))) (recs : List Record)
    (fields : List String) (hall : ∀ r ∈ recs, r.map Prod.fst = fields)
    (hflds : ∀ i f, resultsMem results i f → f ∈ fields) :
    ∀ r ∈ phase3 recs results, r.map Prod.fst = fields := by
  induction results generalizing recs with
  | nil => exact hall
  | cons entry rest ih =>
    obtain ⟨i0, m⟩ := entry
    rw [phase3_cons]
    have hstep : ∀ r ∈ (if i0 < recs.length then
        m.foldl (fun acc2 fc =>
          if fc.2 ≠ "" then updateAt acc2 i0 fc.1 fc.2 else acc2) recs else recs),
        r.map Prod.fst = fields := by
      by_cases hlt : i0 < recs.length
      · rw [if_pos hlt]
        refine innerFold_keys m recs i0 fields hall ?_ hlt
        intro fc hfc
        exact hflds i0 fc.1 ⟨m, List.mem_cons_self _ _, fc.2, hfc⟩
      · rw [if_neg hlt]
        exact hall
    refine ih _ hstep ?_
    intro i f hm
    obtain ⟨m', hm', hc⟩ := hm
    exact hflds i f ⟨m', List.mem_cons_of_mem _ hm', hc⟩

theorem extract_tanaman_some_shape (fetch : String → Option HttpResponse)
    (fb : String → String) (ea ts : String) (save : Bool) (status : Nat)
    (doc : List (List TableRow)) (recs : List Record) (art : Option Json)
    (h : extract_mygap_tanaman_data fetch fb ea ts save status doc = some (recs, art)) :
    ∃ tableRows hIdx colMap, findTargetTable DATA_FIELDS doc = some tableRows ∧
      findHeader DATA_FIELDS tableRows = some (hIdx, colMap) ∧
      recs = (if (phase1 DATA_FIELDS colMap (tableRows.drop (hIdx + 1))).2.isEmpty
        then (phase1 DATA_FIELDS colMap (tableRows.drop (hIdx + 1))).1
        else phase3 (phase1 DATA_FIELDS colMap (tableRows.drop (hIdx + 1))).1
          (batch_fetch_full_content fetch fb base_url
            (phase1 DATA_FIELDS colMap (tableRows.drop (hIdx + 1))).2)) := by
  unfold extract_mygap_tanaman_data at h
  by_cases hs : status ≠ 200
  · rw [if_pos hs] at h
    cases h
  · rw [if_neg hs] at h
    cases ht : findTargetTable DATA_FIELDS doc with
    | none =>
      simp only [ht] at h
      cases h
    | some tableRows =>
      simp only [ht] at h
      cases hh : findHeader DATA_FIELDS tableRows with
      | none =>
        simp only [hh] at h
        cases h
      | some p =>
        obtain ⟨hIdx, colMap⟩ := p
        simp only [hh] at h
        simp only [Option.some.injEq, Prod.mk.injEq] at h
        exact ⟨tableRows, hIdx, colMap, rfl, hh, h.1.symm⟩

theorem extract_am_some_shape (ea ts : String) (save : Bool) (status : Nat)
    (doc : List (List TableRow)) (recs : List Record) (art : Option Json)
    (h : extract_mygap_am_data ea ts save status doc = some (recs, art)) :
    ∃ tableRows hIdx colMap, findTargetTable AM_DATA_FIELDS doc = some tableRows ∧
      findHeader AM_DATA_FIELDS tableRows = some (hIdx, colMap) ∧
      recs = phase1Am colMap (tableRows.drop (hIdx + 1)) := by
  unfold extract_mygap_am_data at h
  by_cases hs : status ≠ 200
  · rw [if_pos hs] at h
    cases h
  · rw [if_neg hs] at h
    cases ht : findTargetTable AM_DATA_FIELDS doc with
    | none =>
      simp only [ht] at h
      cases h
    | some tableRows =>
      simp only [ht] at h
      cases hh : findHeader AM_DATA_FIELDS tableRows with
      | none =>
        simp only [hh] at h
        cases h
      | some p =>
        obtain ⟨hIdx, colMap⟩ := p
        simp only [hh] at h
        simp only [Option.some.injEq, Prod.mk.injEq] at h
        exact ⟨tableRows, hIdx, colMap, rfl, hh, h.1.symm⟩

/-- Claim C6: on every document and for every number of output records,
every record produced by extraction carries exactly the category schema's
field identifiers as its keys, in both category extractors; fields whose
column is absent or short hold the empty-string sentinel rather than
going missing. -/
theorem extraction_record_keys (fetch : String → Option HttpResponse)
    (fb : String → String) (ea ts : String) (save : Bool) (status : Nat)
    (doc : List (List TableRow)) (recs : List Record) (art : Option Json) :
    (extract_mygap_tanaman_data fetch fb ea ts save status doc = some (recs, art) →
      ∀ r ∈ recs, r.map Prod.fst = DATA_FIELDS) ∧
    (extract_mygap_am_data ea ts save status doc = some (recs, art) →
      ∀ r ∈ recs, r.map Prod.fst = AM_DATA_FIELDS) := by
  constructor
  · intro h
    rcases extract_tanaman_some_shape fetch fb ea ts save status doc recs art h with
      ⟨tableRows, hIdx, colMap, ht, hh, hrecs⟩
    subst hrecs
    have hall : ∀ r ∈ (phase1 DATA_FIELDS colMap (tableRows.drop (hIdx + 1))).1,
        r.map Prod.fst = DATA_FIELDS := by
      have hchar : (phase1 DATA_FIELDS colMap (tableRows.drop (hIdx + 1))).1 =
          ((tableRows.drop (hIdx + 1)).filter
            (fun cells => !cells.isEmpty && rowHasData DATA_FIELDS colMap cells)).map
              (rowRecord DATA_FIELDS colMap) :=
        phase1Aux_records DATA_FIELDS colMap (tableRows.drop (hIdx + 1)) 0
      intro r hr
      rw [hchar] at hr
      rcases List.mem_map.mp hr with ⟨cells, _, hcells⟩
      rw [← hcells]
      exact rowRecord_keys DATA_FIELDS colMap cells
    by_cases hreq : (phase1 DATA_FIELDS colMap (tableRows.drop (hIdx + 1))).2.isEmpty
    · rw [if_pos hreq]
      exact hall
    · rw [if_neg hreq]
      refine phase3_keys _ _ DATA_FIELDS hall ?_
      intro i f hm
      rcases bffc_sources fetch fb base_url _ i f hm with ⟨q, hq, hqf, -, -⟩
      rw [← hqf]
      exact phase1Aux_requests_field_mem DATA_FIELDS colMap (tableRows.drop (hIdx + 1)) 0 q hq
  · intro h
    rcases extract_am_some_shape ea ts save status doc recs art h with
      ⟨tableRows, hIdx, colMap, ht, hh, hrecs⟩
    subst hrecs
    have hchar := phase1Am_records colMap (tableRows.drop (hIdx + 1))
    intro r hr
    rw [hchar] at hr
    rcases List.mem_map.mp hr with ⟨cells, _, hcells⟩
    rw [← hcells]
    exact amRowRecord_keys colMap cells

/-- Witness for claim C6: a record of the concrete fixture run carries
exactly the schema keys. -/
theorem extraction_record_keys_witness :
    (mkNoPensijilanRecord ("FULL")).map Prod.fst = DATA_FIELDS := by
  exact (extraction_record_keys dialogFetch noFallback ("") ("") false 200
    docWithDiscardedRow expectedMisdirected none).1 rfl (mkNoPensijilanRecord ("FULL"))
    (by simp [expectedMisdirected])
